import Mathlib

/-!
Verification of the filedeck (Content Manager) repository: a shallow
embedding of the frontend page logic (`Upload`, `Files` pages) and of the
content storage & metadata core described in the specification, together
with theorems settling the spec's claims.

The repository's visible source contains the React frontend, Helm charts
and a setup script; the storage/metadata core itself is not among the
visible source files, so the core is modelled from the specification
(definitions marked `Modelled from the spec:`), while configuration values
(`MAX_FILE_SIZE`, `CHUNK_SIZE`, `allowed_file_types`) and all frontend
handlers are translated directly from the source.
-/

set_option autoImplicit false

/-! ## Generic character-list helpers -/

/-- `startsWithChars needle hay` is true when `needle` is an initial
segment of `hay` (character-by-character comparison). -/
def startsWithChars : List Char → List Char → Bool
  | [], _ => true
  | _ :: _, [] => false
  | a :: as, b :: bs => a = b && startsWithChars as bs

/-- `containsSub needle hay`: JavaScript `hay.includes(needle)` — true when
`needle` occurs contiguously inside `hay`. -/
def containsSub (needle : List Char) : List Char → Bool
  | [] => startsWithChars needle []
  | c :: hs => startsWithChars needle (c :: hs) || containsSub needle hs

/-- Lower-casing of a string, as JavaScript `s.toLowerCase()` on the
character sequence. -/
def lowerChars (s : String) : List Char := s.data.map Char.toLower

/-! ## Upload page (`src/unnamed/part_010`)

State of the `Upload` React component relevant to the tag and XML-metadata
handlers: the `tags` list and the `currentTag` text field. -/

structure UploadPageState where
  tags : List String
  currentTag : String
  deriving Repr, DecidableEq

/-- JavaScript `String.prototype.trim()`: strip leading and trailing
whitespace from the character sequence. -/
def jsTrim (s : String) : String :=
  ⟨((s.data.dropWhile Char.isWhitespace).reverse.dropWhile Char.isWhitespace).reverse⟩

/-- `handleAddTag` from the Upload page: if `currentTag.trim()` is truthy
(non-empty) and not already in `tags`, append it and clear the field;
otherwise leave the state unchanged. -/
def handleAddTag (s : UploadPageState) : UploadPageState :=
  if jsTrim s.currentTag ≠ "" && !s.tags.contains (jsTrim s.currentTag) then
    { tags := s.tags ++ [jsTrim s.currentTag], currentTag := "" }
  else
    s

/-- `handleRemoveTag` from the Upload page:
`setTags(tags.filter(tag => tag !== tagToRemove))`. -/
def handleRemoveTag (s : UploadPageState) (tagToRemove : String) : UploadPageState :=
  { s with tags := s.tags.filter (fun tag => tag ≠ tagToRemove) }

/-- A browser `File` as seen by the XML-metadata input: its name and its
reported MIME type (`file.type`). -/
structure BrowserFile where
  name : String
  mimeType : String
  deriving Repr, DecidableEq

/-- `handleXmlFileChange` from the Upload page: the chosen file (first
element of `event.target.files`, when present) replaces the `xmlFile`
state only when `file.type === 'text/xml'`. -/
def handleXmlFileChange (xmlFile : Option BrowserFile) (chosen : Option BrowserFile) :
    Option BrowserFile :=
  match chosen with
  | some f => if f.mimeType = "text/xml" then some f else xmlFile
  | none => xmlFile

/-! ## Files page (`src/frontend/src/pages/Dashboard.tsx`, `Files` component) -/

/-- The `FileData` interface of the Files page. -/
structure FileData where
  id : String
  filename : String
  size : String
  ftype : String
  uploadDate : String
  tags : List String
  deriving Repr, DecidableEq

/-- The `mockFiles` constant of the Files page. -/
def mockFiles : List FileData :=
  [ { id := "1", filename := "project-proposal.pdf", size := "2.5 MB", ftype := "PDF",
      uploadDate := "2023-12-01", tags := ["proposal", "important"] },
    { id := "2", filename := "financial-report.xlsx", size := "1.8 MB", ftype := "Excel",
      uploadDate := "2023-12-02", tags := ["finance", "report"] },
    { id := "3", filename := "presentation.pptx", size := "5.2 MB", ftype := "PowerPoint",
      uploadDate := "2023-12-03", tags := ["presentation"] } ]

/-- The search predicate of the Files page:
`file.filename.toLowerCase().includes(searchTerm.toLowerCase())`. -/
def matchesSearch (searchTerm : String) (f : FileData) : Bool :=
  containsSub (lowerChars searchTerm) (lowerChars f.filename)

/-- `filteredFiles` of the Files page, over an arbitrary file list. -/
def filteredFiles (files : List FileData) (searchTerm : String) : List FileData :=
  files.filter (matchesSearch searchTerm)

/-- Pagination state of the Files page: `page` and `rowsPerPage`. -/
structure FilesPageState where
  searchTerm : String
  page : Nat
  rowsPerPage : Nat
  deriving Repr, DecidableEq

/-- The rows the table body renders:
`filteredFiles.slice(page * rowsPerPage, page * rowsPerPage + rowsPerPage)`. -/
def renderedRows (files : List FileData) (st : FilesPageState) : List FileData :=
  ((filteredFiles files st.searchTerm).drop (st.page * st.rowsPerPage)).take st.rowsPerPage

/-- `onRowsPerPageChange` of the Files page: set `rowsPerPage` to the new
value and reset `page` to 0. -/
def handleRowsPerPageChange (st : FilesPageState) (value : Nat) : FilesPageState :=
  { st with rowsPerPage := value, page := 0 }

/-! ## Content storage & metadata core

The core component (Storage Provider, Chunked Transfer Engine, Metadata
Store, Content Registry) is not among the repository's visible source
files; it is modelled here from the specification.  Configuration values
come from the source (`deployment/helm-chart` values and the setup
script's `.env` template). -/

/-- File Record lifecycle state (spec §4.4):
`Pending -> Active -> Tombstoned -> Purged`. -/
inductive FileStatus
  | pending
  | active
  | tombstoned
  | purged
  deriving Repr, DecidableEq

/-- Storage backend variants (spec §4.1): local filesystem plus three
cloud object stores. -/
inductive StorageProviderKind
  | localDisk
  | azure
  | gcp
  | aws
  deriving Repr, DecidableEq

/-- Modelled from the spec: the File Record entity of §3 (the Metadata
Store's row describing one uploaded artifact). -/
structure FileRecord where
  id : Nat
  tenantId : String
  filename : String
  contentType : String
  sizeBytes : Nat
  storageKey : String
  storageProvider : StorageProviderKind
  tags : List String
  createdAt : Nat
  updatedAt : Nat
  status : FileStatus
  deriving Repr, DecidableEq

/-- Modelled from the spec: the blob namespace of a Storage Provider —
a finite map from storage keys to byte sequences (bytes as `Nat`). -/
abbrev BlobStore := List (String × List Nat)

/-- Storage Provider `get` at the key level: first entry wins. -/
def getBlob : BlobStore → String → Option (List Nat)
  | [], _ => none
  | (k, v) :: rest, key => if k = key then some v else getBlob rest key

/-- Storage Provider `exists` (spec §4.1). -/
def existsBlob (s : BlobStore) (key : String) : Bool :=
  (getBlob s key).isSome

/-- Storage Provider `delete` (spec §4.1): removes every entry at the
key; deleting a missing key is not an error (the function is total). -/
def deleteBlob (s : BlobStore) (key : String) : BlobStore :=
  s.filter (fun p => p.1 ≠ key)

/-- Overwrite the value at a key. -/
def setBlob (s : BlobStore) (key : String) (v : List Nat) : BlobStore :=
  (key, v) :: deleteBlob s key

/-- Append a chunk to the existing object at `key` (creating it when
absent). -/
def appendBlob (s : BlobStore) (key : String) (c : List Nat) : BlobStore :=
  match getBlob s key with
  | some b => setBlob s key (b ++ c)
  | none => setBlob s key c

/-- Static configuration (spec §6): size/type policy limits and chunk
size, constructed once at process start. -/
structure CoreConfig where
  maxFileSize : Nat
  chunkSize : Nat
  allowedFileTypes : List String
  deriving Repr, DecidableEq

/-- Configuration from the source: `MAX_FILE_SIZE=100` (megabytes) and
`CHUNK_SIZE=8192` (Helm values `src/unnamed/part_007` and the `.env`
template in `src/unnamed/part_008`), and the
`allowed_file_types` ConfigMap entry of `src/unnamed/part_007`. -/
def defaultConfig : CoreConfig :=
  { maxFileSize := 100 * 1024 * 1024
  , chunkSize := 8192
  , allowedFileTypes :=
      ["pdf", "doc", "docx", "txt", "xml", "json", "csv", "xlsx",
       "png", "jpg", "jpeg", "gif"] }

/-- The error taxonomy of spec §7. -/
inductive CoreError
  | validationError
  | notFound
  | storageUnavailable
  | storeUnavailable
  | sizeLimitExceeded
  | sizeMismatch
  | conflict
  deriving Repr, DecidableEq

/-- Modelled from the spec: the whole-system state — Metadata Store
records, Storage Provider blobs, and the id generator. -/
structure RegistryState where
  records : List FileRecord
  blobs : BlobStore
  nextId : Nat
  deriving Repr, DecidableEq

/-- Split a stream into chunks of at most `chunkSize` bytes, with
explicit fuel (the stream length bounds the number of chunks once
`chunkSize > 0`). -/
def toChunksFuel : Nat → Nat → List Nat → List (List Nat)
  | 0, _, _ => []
  | _ + 1, _, [] => []
  | fuel + 1, chunkSize, b :: bs =>
      (b :: bs).take chunkSize :: toChunksFuel fuel chunkSize ((b :: bs).drop chunkSize)

/-- Modelled from the spec: the Chunked Transfer Engine's splitting of an
inbound byte stream into fixed-size chunks (spec §4.2). -/
def toChunks (chunkSize : Nat) (stream : List Nat) : List (List Nat) :=
  toChunksFuel stream.length chunkSize stream

/-- Modelled from the spec: the Chunked Transfer Engine loop (spec §4.2) —
feed chunks to the provider, tracking cumulative bytes; abort with
`SizeLimitExceeded` when the cumulative count exceeds the maximum, or
with `StorageUnavailable` when the provider's put fails (fault injection
via `failAt`: the put of chunk number `i` fails).  Returns the outcome,
the resulting blob store, and the number of stream bytes consumed. -/
def runChunks (maxSize : Nat) (failAt : Option Nat) (key : String) :
    List (List Nat) → Nat → Nat → BlobStore →
    Except CoreError Unit × BlobStore × Nat
  | [], _, consumed, store => (.ok (), store, consumed)
  | c :: rest, idx, consumed, store =>
      let consumed' := consumed + c.length
      if maxSize < consumed' then
        (.error .sizeLimitExceeded, store, consumed')
      else if failAt = some idx then
        (.error .storageUnavailable, store, consumed')
      else
        runChunks maxSize failAt key rest (idx + 1) consumed' (appendBlob store key c)

instance exceptDecEq {ε α : Type} [DecidableEq ε] [DecidableEq α] :
    DecidableEq (Except ε α) := fun x y =>
  match x, y with
  | .ok a, .ok b =>
      if h : a = b then .isTrue (by rw [h]) else .isFalse (by simp [h])
  | .error a, .error b =>
      if h : a = b then .isTrue (by rw [h]) else .isFalse (by simp [h])
  | .ok _, .error _ => .isFalse (by simp)
  | .error _, .ok _ => .isFalse (by simp)

/-- Outcome of a chunked `put`. -/
structure PutResult where
  outcome : Except CoreError Unit
  store : BlobStore
  consumed : Nat
  deriving Repr, DecidableEq

/-- Modelled from the spec: Storage Provider `put` driven by the Chunked
Transfer Engine (spec §4.1–4.2).  The engine enforces the maximum-size
policy *before* any bytes are committed (spec §4.2): an over-limit stream
is rejected with `SizeLimitExceeded` having consumed zero bytes, running
the uniform abort cleanup (delete of the attempt's key).  Otherwise it
creates the object, streams the chunks into it (the loop keeps its own
defensive cumulative abort), and on any failure deletes the partial key
so no partially-written object stays visible. -/
def chunkedPut (cfg : CoreConfig) (store : BlobStore) (key : String)
    (stream : List Nat) (failAt : Option Nat) : PutResult :=
  if cfg.maxFileSize < stream.length then
    ⟨.error .sizeLimitExceeded, deleteBlob store key, 0⟩
  else
    match runChunks cfg.maxFileSize failAt key (toChunks cfg.chunkSize stream) 0 0
        (setBlob store key []) with
    | (.ok u, s, n) => ⟨.ok u, s, n⟩
    | (.error e, s, n) => ⟨.error e, deleteBlob s key, n⟩

/-- The characters after the last `.` of a name, or `none` when the name
has no dot. -/
def extChars : List Char → Option (List Char)
  | [] => none
  | c :: cs =>
      match extChars cs with
      | some e => some e
      | none => if c = '.' then some cs else none

/-- Modelled from the spec: extension extraction for the allowed-file-type
policy (the backend check is not among the visible sources; the allow-list
itself is the `allowed_file_types` configuration value).  A name without a
dot has no extension. -/
def fileExtension (filename : String) : String :=
  match extChars filename.data with
  | some e => ⟨e⟩
  | none => ""

/-- Modelled from the spec: the allowed-file-type policy check — the
lower-cased extension against the configured allow-list (spec §4.2). -/
def typeAllowed (cfg : CoreConfig) (filename : String) : Bool :=
  cfg.allowedFileTypes.contains ⟨lowerChars (fileExtension filename)⟩

/-- Modelled from the spec: storage-key construction always embeds the
tenant ID so the blob namespace is partitioned by tenant (spec §4.1). -/
def storageKeyFor (tenantId : String) (id : Nat) : String :=
  tenantId ++ "/" ++ toString id

/-- Outcome of an upload: the result, the new system state, and the
number of stream bytes consumed. -/
structure UploadOutcome where
  result : Except CoreError FileRecord
  state : RegistryState
  consumed : Nat
  deriving Repr, DecidableEq

/-- Modelled from the spec: Content Registry upload (spec §4.4) —
validate the type policy before any bytes are committed, stream the
bytes to a tenant-partitioned key, and only on success create the
`Active` record; on any failure no record is created and the partial
blob has been deleted by the put's cleanup. -/
def upload (cfg : CoreConfig) (st : RegistryState)
    (tenantId filename contentType : String) (stream : List Nat)
    (tags : List String) (now : Nat) (provider : StorageProviderKind)
    (failAt : Option Nat) : UploadOutcome :=
  if typeAllowed cfg filename then
    let key := storageKeyFor tenantId st.nextId
    let put := chunkedPut cfg st.blobs key stream failAt
    match put.outcome with
    | .error e => ⟨.error e, { st with blobs := put.store }, put.consumed⟩
    | .ok _ =>
        let r : FileRecord :=
          { id := st.nextId, tenantId := tenantId, filename := filename,
            contentType := contentType, sizeBytes := stream.length,
            storageKey := key, storageProvider := provider, tags := tags,
            createdAt := now, updatedAt := now, status := .active }
        ⟨.ok r, { records := r :: st.records, blobs := put.store,
                  nextId := st.nextId + 1 }, put.consumed⟩
  else
    ⟨.error .validationError, st, 0⟩

/-- Look a record up by id in the Metadata Store. -/
def findRecord (st : RegistryState) (id : Nat) : Option FileRecord :=
  st.records.find? (fun r => r.id == id)

/-- Modelled from the spec: Content Registry fetch (spec §4.4) — resolve
by id, fail `NotFound` on tenant mismatch (Forbidden collapsed into
NotFound to avoid existence leakage) or on a non-`Active` record, then
stream the bytes from the record's `storageKey`. -/
def fetch (st : RegistryState) (tenantId : String) (id : Nat) :
    Except CoreError (FileRecord × List Nat) :=
  match findRecord st id with
  | none => .error .notFound
  | some r =>
      if r.tenantId = tenantId ∧ r.status = .active then
        match getBlob st.blobs r.storageKey with
        | some bytes => .ok (r, bytes)
        | none => .error .storageUnavailable
      else
        .error .notFound

/-- Set the status of the record with the given id. -/
def setStatus (st : RegistryState) (id : Nat) (s : FileStatus) : RegistryState :=
  { st with records :=
      st.records.map (fun r => if r.id = id then { r with status := s } else r) }

/-- Modelled from the spec: Content Registry delete (spec §4.4) — mark the
record `Tombstoned`, then issue the Storage Provider delete and mark
`Purged`; when the blob delete fails (`blobDeleteOk = false`) the record
stays `Tombstoned` for a retried purge.  Deleting an already-`Purged`
record is a successful no-op. -/
def deleteFile (st : RegistryState) (tenantId : String) (id : Nat)
    (blobDeleteOk : Bool) : Except CoreError RegistryState :=
  match findRecord st id with
  | none => .error .notFound
  | some r =>
      if r.tenantId = tenantId then
        match r.status with
        | .purged => .ok st
        | _ =>
            let st1 := setStatus st id .tombstoned
            if blobDeleteOk then
              .ok (setStatus { st1 with blobs := deleteBlob st1.blobs r.storageKey }
                    id .purged)
            else
              .ok st1
      else
        .error .notFound

/-- Caller-supplied query filters (spec §4.3); the `tenant` field is what
an untrusted caller might pass and is never consulted — the layer injects
the context tenant itself. -/
structure QueryFilters where
  tenant : Option String
  filenameContains : Option String
  tags : List String
  status : Option FileStatus
  deriving Repr, DecidableEq

/-- Pagination parameters (spec §4.3). -/
structure PageSpec where
  limit : Nat
  offset : Nat
  deriving Repr, DecidableEq

/-- Modelled from the spec: the Metadata Store's filter predicate
(spec §4.3) — tenant mandatory (taken from the context, not from the
caller's filters), filename substring, tag intersection, status. -/
def matchesQuery (tenantId : String) (f : QueryFilters) (r : FileRecord) : Bool :=
  r.tenantId == tenantId
  && (match f.filenameContains with
      | none => true
      | some s => containsSub s.data r.filename.data)
  && f.tags.all (fun t => r.tags.contains t)
  && (match f.status with
      | none => true
      | some s => r.status == s)

/-- Modelled from the spec: the deterministic query order — `createdAt`
descending, ties broken by `id` (spec §4.3). -/
def queryOrder (a b : FileRecord) : Prop :=
  b.createdAt < a.createdAt ∨ (a.createdAt = b.createdAt ∧ a.id ≤ b.id)

instance : DecidableRel queryOrder := fun a b => by
  unfold queryOrder; infer_instance

instance : IsTotal FileRecord queryOrder := by
  constructor; intro a b; unfold queryOrder; omega

instance : IsTrans FileRecord queryOrder := by
  constructor; intro a b c hab hbc; unfold queryOrder at *; omega

/-- Modelled from the spec: Metadata Store query (spec §4.3) — filter by
the context tenant and the caller's filters, sort deterministically,
then paginate with `offset`/`limit`. -/
def query (st : RegistryState) (tenantId : String) (f : QueryFilters)
    (p : PageSpec) : List FileRecord :=
  (((st.records.filter (matchesQuery tenantId f)).insertionSort
      queryOrder).drop p.offset).take p.limit

/-! ## Supporting lemmas: blob store -/

theorem getBlob_cons (k0 : String) (v : List Nat) (rest : BlobStore) (key : String) :
    getBlob ((k0, v) :: rest) key = if k0 = key then some v else getBlob rest key := rfl

theorem deleteBlob_cons (k0 : String) (v : List Nat) (rest : BlobStore) (k : String) :
    deleteBlob ((k0, v) :: rest) k =
      if k0 = k then deleteBlob rest k else (k0, v) :: deleteBlob rest k := by
  by_cases h : k0 = k <;> simp [deleteBlob, List.filter_cons, h]

theorem getBlob_deleteBlob_self (s : BlobStore) (k : String) :
    getBlob (deleteBlob s k) k = none := by
  induction s with
  | nil => rfl
  | cons p rest ih =>
      obtain ⟨k0, v⟩ := p
      rw [deleteBlob_cons]
      by_cases h : k0 = k
      · rw [if_pos h]; exact ih
      · rw [if_neg h, getBlob_cons, if_neg h]; exact ih

theorem getBlob_deleteBlob_ne (s : BlobStore) (k k' : String) (h : k' ≠ k) :
    getBlob (deleteBlob s k) k' = getBlob s k' := by
  induction s with
  | nil => rfl
  | cons p rest ih =>
      obtain ⟨k0, v⟩ := p
      rw [deleteBlob_cons, getBlob_cons]
      by_cases h0 : k0 = k
      · subst h0
        rw [if_pos rfl, if_neg (Ne.symm h)]
        exact ih
      · rw [if_neg h0, getBlob_cons]
        by_cases h1 : k0 = k'
        · rw [if_pos h1, if_pos h1]
        · rw [if_neg h1, if_neg h1]; exact ih

theorem getBlob_setBlob_self (s : BlobStore) (k : String) (v : List Nat) :
    getBlob (setBlob s k v) k = some v := by
  show getBlob ((k, v) :: deleteBlob s k) k = some v
  rw [getBlob_cons, if_pos rfl]

theorem getBlob_setBlob_ne (s : BlobStore) (k k' : String) (v : List Nat)
    (h : k' ≠ k) : getBlob (setBlob s k v) k' = getBlob s k' := by
  show getBlob ((k, v) :: deleteBlob s k) k' = getBlob s k'
  rw [getBlob_cons, if_neg (fun e => h e.symm)]
  exact getBlob_deleteBlob_ne s k k' h

theorem getBlob_appendBlob_self (s : BlobStore) (k : String) (b c : List Nat)
    (h : getBlob s k = some b) :
    getBlob (appendBlob s k c) k = some (b ++ c) := by
  unfold appendBlob
  rw [h]
  exact getBlob_setBlob_self s k (b ++ c)

theorem getBlob_appendBlob_ne (s : BlobStore) (k k' : String) (c : List Nat)
    (h : k' ≠ k) : getBlob (appendBlob s k c) k' = getBlob s k' := by
  unfold appendBlob
  cases getBlob s k <;> exact getBlob_setBlob_ne _ _ _ _ h

theorem deleteBlob_deleteBlob (s : BlobStore) (k : String) :
    deleteBlob (deleteBlob s k) k = deleteBlob s k := by
  induction s with
  | nil => rfl
  | cons p rest ih =>
      obtain ⟨k0, v⟩ := p
      rw [deleteBlob_cons]
      by_cases h : k0 = k
      · rw [if_pos h]; exact ih
      · rw [if_neg h, deleteBlob_cons, if_neg h, ih]

/-! ## Supporting lemmas: chunking -/

theorem toChunksFuel_flatten (n : Nat) (hn : 0 < n) :
    ∀ (fuel : Nat) (stream : List Nat), stream.length ≤ fuel →
      (toChunksFuel fuel n stream).flatten = stream := by
  intro fuel
  induction fuel with
  | zero =>
      intro stream hs
      rw [Nat.le_zero, List.length_eq_zero] at hs
      subst hs; rfl
  | succ fuel ih =>
      intro stream hs
      match stream with
      | [] => rfl
      | b :: bs =>
          simp only [List.length_cons] at hs
          have hlen : (List.drop n (b :: bs)).length ≤ fuel := by
            simp only [List.length_drop, List.length_cons]
            omega
          show (List.take n (b :: bs) :: toChunksFuel fuel n (List.drop n (b :: bs))).flatten
              = b :: bs
          rw [List.flatten_cons, ih _ hlen, List.take_append_drop]

theorem toChunks_flatten (n : Nat) (hn : 0 < n) (stream : List Nat) :
    (toChunks n stream).flatten = stream :=
  toChunksFuel_flatten n hn stream.length stream le_rfl

theorem toChunksFuel_chunk_le (n : Nat) :
    ∀ (fuel : Nat) (stream : List Nat) (c : List Nat),
      c ∈ toChunksFuel fuel n stream → c.length ≤ n := by
  intro fuel
  induction fuel with
  | zero => intro stream c hc; simp [toChunksFuel] at hc
  | succ fuel ih =>
      intro stream c hc
      match stream with
      | [] => simp [toChunksFuel] at hc
      | b :: bs =>
          simp only [toChunksFuel, List.mem_cons] at hc
          rcases hc with hc | hc
          · subst hc
            rw [List.length_take]
            exact Nat.min_le_left n _
          · exact ih _ _ hc

theorem toChunks_chunk_le (n : Nat) (stream c : List Nat)
    (hc : c ∈ toChunks n stream) : c.length ≤ n :=
  toChunksFuel_chunk_le n stream.length stream c hc

/-! ## Supporting lemmas: chunked transfer -/

theorem runChunks_getBlob_ne (maxSize : Nat) (failAt : Option Nat) (key : String) :
    ∀ (chunks : List (List Nat)) (idx consumed : Nat) (store : BlobStore)
      (k' : String), k' ≠ key →
      getBlob (runChunks maxSize failAt key chunks idx consumed store).2.1 k'
        = getBlob store k' := by
  intro chunks
  induction chunks with
  | nil => intro idx consumed store k' h; rfl
  | cons c rest ih =>
      intro idx consumed store k' h
      simp only [runChunks]
      split
      · rfl
      · split
        · rfl
        · exact (ih _ _ _ _ h).trans (getBlob_appendBlob_ne _ _ _ _ h)

theorem runChunks_none_ok (maxSize : Nat) (key : String) :
    ∀ (chunks : List (List Nat)) (idx consumed : Nat) (store : BlobStore)
      (b : List Nat),
      getBlob store key = some b →
      consumed + chunks.flatten.length ≤ maxSize →
      ∃ s', runChunks maxSize none key chunks idx consumed store
              = (.ok (), s', consumed + chunks.flatten.length)
        ∧ getBlob s' key = some (b ++ chunks.flatten) := by
  intro chunks
  induction chunks with
  | nil =>
      intro idx consumed store b hb hle
      exact ⟨store, by simp [runChunks], by simpa using hb⟩
  | cons c rest ih =>
      intro idx consumed store b hb hle
      simp only [List.flatten_cons, List.length_append] at hle
      have hsize : ¬ maxSize < consumed + c.length := by omega
      have hb' : getBlob (appendBlob store key c) key = some (b ++ c) :=
        getBlob_appendBlob_self store key b c hb
      have hle' : consumed + c.length + rest.flatten.length ≤ maxSize := by omega
      obtain ⟨s', hrun, hget⟩ :=
        ih (idx + 1) (consumed + c.length) (appendBlob store key c) (b ++ c) hb' hle'
      refine ⟨s', ?_, ?_⟩
      · simp only [runChunks, if_neg hsize]
        rw [if_neg (by simp : ¬ (none : Option Nat) = some idx)]
        rw [hrun]
        simp [List.flatten_cons, Nat.add_assoc]
      · simpa [List.flatten_cons, List.append_assoc] using hget

theorem runChunks_none_exceeds (maxSize cs : Nat) (key : String) :
    ∀ (chunks : List (List Nat)) (idx consumed : Nat) (store : BlobStore),
      (∀ c ∈ chunks, c.length ≤ cs) →
      consumed ≤ maxSize →
      maxSize < consumed + chunks.flatten.length →
      ∃ s' n, runChunks maxSize none key chunks idx consumed store
                = (.error .sizeLimitExceeded, s', n) ∧ n ≤ maxSize + cs := by
  intro chunks
  induction chunks with
  | nil =>
      intro idx consumed store hcs hc hx
      simp only [List.flatten_nil, List.length_nil] at hx
      omega
  | cons c rest ih =>
      intro idx consumed store hcs hc hx
      by_cases hsize : maxSize < consumed + c.length
      · refine ⟨store, consumed + c.length, ?_, ?_⟩
        · simp only [runChunks, if_pos hsize]
        · have := hcs c (List.mem_cons_self c rest); omega
      · have hc' : consumed + c.length ≤ maxSize := by omega
        have hx' : maxSize < consumed + c.length + rest.flatten.length := by
          simp only [List.flatten_cons, List.length_append] at hx; omega
        obtain ⟨s', n, hrun, hn⟩ :=
          ih (idx + 1) (consumed + c.length) (appendBlob store key c)
            (fun c0 hc0 => hcs c0 (List.mem_cons_of_mem _ hc0)) hc' hx'
        refine ⟨s', n, ?_, hn⟩
        simp only [runChunks, if_neg hsize]
        rw [if_neg (by simp : ¬ (none : Option Nat) = some idx)]
        exact hrun

theorem runChunks_failAt_error (maxSize : Nat) (key : String) (i : Nat) :
    ∀ (chunks : List (List Nat)) (idx consumed : Nat) (store : BlobStore),
      idx ≤ i → i < idx + chunks.length →
      ∃ e s' n, runChunks maxSize (some i) key chunks idx consumed store
                  = (.error e, s', n) := by
  intro chunks
  induction chunks with
  | nil =>
      intro idx consumed store h1 h2
      simp only [List.length_nil] at h2
      omega
  | cons c rest ih =>
      intro idx consumed store h1 h2
      by_cases hsize : maxSize < consumed + c.length
      · exact ⟨.sizeLimitExceeded, store, consumed + c.length,
          by simp only [runChunks, if_pos hsize]⟩
      · by_cases hi : i = idx
        · refine ⟨.storageUnavailable, store, consumed + c.length, ?_⟩
          simp only [runChunks, if_neg hsize]
          rw [if_pos (by rw [hi])]
        · have h1' : idx + 1 ≤ i := by omega
          have h2' : i < (idx + 1) + rest.length := by
            simp only [List.length_cons] at h2; omega
          obtain ⟨e, s', n, hrun⟩ :=
            ih (idx + 1) (consumed + c.length) (appendBlob store key c) h1' h2'
          refine ⟨e, s', n, ?_⟩
          simp only [runChunks, if_neg hsize]
          rw [if_neg (by simp [hi] : ¬ (some i = some idx))]
          exact hrun

theorem chunkedPut_frame (cfg : CoreConfig) (store : BlobStore) (key : String)
    (stream : List Nat) (failAt : Option Nat) (k' : String) (h : k' ≠ key) :
    getBlob (chunkedPut cfg store key stream failAt).store k' = getBlob store k' := by
  have hfr := runChunks_getBlob_ne cfg.maxFileSize failAt key
      (toChunks cfg.chunkSize stream) 0 0 (setBlob store key []) k' h
  unfold chunkedPut
  by_cases hsz : cfg.maxFileSize < stream.length
  · rw [if_pos hsz]
    exact getBlob_deleteBlob_ne _ _ _ h
  · rw [if_neg hsz]
    rcases hr : runChunks cfg.maxFileSize failAt key (toChunks cfg.chunkSize stream) 0 0
        (setBlob store key []) with ⟨res, s', n⟩
    rw [hr] at hfr
    cases res with
    | ok u => exact hfr.trans (getBlob_setBlob_ne _ _ _ _ h)
    | error e =>
        show getBlob (deleteBlob s' key) k' = getBlob store k'
        rw [getBlob_deleteBlob_ne _ _ _ h]
        exact hfr.trans (getBlob_setBlob_ne _ _ _ _ h)

theorem chunkedPut_error_not_exists (cfg : CoreConfig) (store : BlobStore)
    (key : String) (stream : List Nat) (failAt : Option Nat) (e : CoreError)
    (h : (chunkedPut cfg store key stream failAt).outcome = .error e) :
    existsBlob (chunkedPut cfg store key stream failAt).store key = false := by
  unfold chunkedPut at h ⊢
  by_cases hsz : cfg.maxFileSize < stream.length
  · rw [if_pos hsz]
    show ((getBlob (deleteBlob store key) key).isSome = false)
    rw [getBlob_deleteBlob_self]
    rfl
  · rw [if_neg hsz] at h ⊢
    rcases hr : runChunks cfg.maxFileSize failAt key (toChunks cfg.chunkSize stream) 0 0
        (setBlob store key []) with ⟨res, s', n⟩
    rw [hr] at h
    cases res with
    | ok u => exact Except.noConfusion h
    | error e' =>
        show ((getBlob (deleteBlob s' key) key).isSome = false)
        rw [getBlob_deleteBlob_self]
        rfl

theorem chunkedPut_ok (cfg : CoreConfig) (store : BlobStore) (key : String)
    (stream : List Nat) (hcs : 0 < cfg.chunkSize)
    (hlen : stream.length ≤ cfg.maxFileSize) :
    (chunkedPut cfg store key stream none).outcome = .ok ()
    ∧ (chunkedPut cfg store key stream none).consumed = stream.length
    ∧ getBlob (chunkedPut cfg store key stream none).store key = some stream := by
  obtain ⟨s', hrun, hget⟩ := runChunks_none_ok cfg.maxFileSize key
      (toChunks cfg.chunkSize stream) 0 0 (setBlob store key []) []
      (getBlob_setBlob_self store key [])
      (by rw [toChunks_flatten cfg.chunkSize hcs]; omega)
  unfold chunkedPut
  rw [if_neg (not_lt.mpr hlen), hrun]
  rw [toChunks_flatten cfg.chunkSize hcs] at hget
  refine ⟨rfl, ?_, ?_⟩
  · show 0 + (toChunks cfg.chunkSize stream).flatten.length = stream.length
    rw [toChunks_flatten cfg.chunkSize hcs]
    omega
  · show getBlob s' key = some stream
    simpa using hget

theorem chunkedPut_exceeds (cfg : CoreConfig) (store : BlobStore) (key : String)
    (stream : List Nat) (failAt : Option Nat)
    (hlen : cfg.maxFileSize < stream.length) :
    chunkedPut cfg store key stream failAt
      = ⟨.error .sizeLimitExceeded, deleteBlob store key, 0⟩ := by
  unfold chunkedPut
  rw [if_pos hlen]

theorem chunkedPut_failAt (cfg : CoreConfig) (store : BlobStore) (key : String)
    (stream : List Nat) (i : Nat)
    (hi : i < (toChunks cfg.chunkSize stream).length) :
    ∃ e, (chunkedPut cfg store key stream (some i)).outcome = .error e := by
  by_cases hsz : cfg.maxFileSize < stream.length
  · exact ⟨.sizeLimitExceeded, by unfold chunkedPut; rw [if_pos hsz]⟩
  · obtain ⟨e, s', n, hrun⟩ := runChunks_failAt_error cfg.maxFileSize key i
      (toChunks cfg.chunkSize stream) 0 0 (setBlob store key [])
      (Nat.zero_le _) (by omega)
    refine ⟨e, ?_⟩
    unfold chunkedPut
    rw [if_neg hsz, hrun]

/-! ## Supporting lemmas: metadata store / registry -/

theorem findRecord_setStatus (st : RegistryState) (id : Nat) (s : FileStatus) :
    findRecord (setStatus st id s) id
      = (findRecord st id).map (fun r => { r with status := s }) := by
  unfold findRecord setStatus
  induction st.records with
  | nil => rfl
  | cons r rs ih =>
      by_cases h : r.id = id
      · simp [List.find?_cons, h]
      · simpa [List.find?_cons, h] using ih

theorem findRecord_blobs (records : List FileRecord) (blobs blobs' : BlobStore)
    (nextId : Nat) (id : Nat) :
    findRecord ⟨records, blobs', nextId⟩ id = findRecord ⟨records, blobs, nextId⟩ id := rfl

theorem fetch_found (S : RegistryState) (t : String) (id : Nat) (r : FileRecord)
    (bytes : List Nat) (hfind : findRecord S id = some r)
    (htid : r.tenantId = t) (hst : r.status = .active)
    (hblob : getBlob S.blobs r.storageKey = some bytes) :
    fetch S t id = .ok (r, bytes) := by
  simp only [fetch, hfind]
  rw [if_pos ⟨htid, hst⟩, hblob]

theorem containsSub_nil (hay : List Char) : containsSub [] hay = true := by
  cases hay <;> simp [containsSub, startsWithChars]

/-! ## Claims about the Upload and Files pages -/

/-- C8: `handleAddTag` appends the trimmed tag only when it is non-empty
and not already present (so a duplicate or whitespace-only tag leaves the
state unchanged and the tag list stays duplicate-free), and
`handleRemoveTag` removes exactly the given tag and keeps all others. -/
theorem upload_tags_invariant (s : UploadPageState) (t : String) :
    (jsTrim s.currentTag = "" → handleAddTag s = s)
    ∧ (s.tags.contains (jsTrim s.currentTag) = true → handleAddTag s = s)
    ∧ (jsTrim s.currentTag ≠ "" → s.tags.contains (jsTrim s.currentTag) = false →
        handleAddTag s = { tags := s.tags ++ [jsTrim s.currentTag], currentTag := "" })
    ∧ (s.tags.Nodup → (handleAddTag s).tags.Nodup)
    ∧ t ∉ (handleRemoveTag s t).tags
    ∧ (∀ u, u ≠ t → (u ∈ (handleRemoveTag s t).tags ↔ u ∈ s.tags)) := by
  refine ⟨?_, ?_, ?_, ?_, ?_, ?_⟩
  · intro h; simp [handleAddTag, h]
  · intro h
    unfold handleAddTag
    rw [if_neg (fun hc => by
      rw [Bool.and_eq_true, h] at hc
      exact Bool.noConfusion hc.2)]
  · intro h1 h2
    unfold handleAddTag
    have hc : (jsTrim s.currentTag ≠ "" && !s.tags.contains (jsTrim s.currentTag)) = true := by
      rw [Bool.and_eq_true]
      exact ⟨decide_eq_true h1, by rw [h2]; rfl⟩
    rw [if_pos hc]
  · intro hnd
    unfold handleAddTag
    split
    · next hcond =>
        simp only [Bool.and_eq_true, Bool.not_eq_true'] at hcond
        have hmem : jsTrim s.currentTag ∉ s.tags := by
          intro hm
          have hc : s.tags.contains (jsTrim s.currentTag) = true := List.elem_iff.mpr hm
          rw [hcond.2] at hc
          exact Bool.noConfusion hc
        exact hnd.append (List.nodup_singleton _)
          (by simpa [List.disjoint_singleton] using hmem)
    · next => exact hnd
  · simp [handleRemoveTag, List.mem_filter]
  · intro u hu
    simp [handleRemoveTag, List.mem_filter, hu]

/-- C9: the Files page's `filteredFiles` keeps exactly the files whose
lower-cased filename contains the lower-cased search term, in the
original order (the empty term keeps every file); the table body renders
the `page*rowsPerPage` slice of length at most `rowsPerPage`; changing
rows-per-page resets the page to 0. -/
theorem files_filter_pagination (files : List FileData) (term : String)
    (st : FilesPageState) (v : Nat) (r : FileData) :
    (filteredFiles files term).Sublist files
    ∧ (r ∈ filteredFiles files term ↔
        r ∈ files ∧ containsSub (lowerChars term) (lowerChars r.filename) = true)
    ∧ filteredFiles files "" = files
    ∧ (renderedRows files st
        = ((filteredFiles files st.searchTerm).drop (st.page * st.rowsPerPage)).take
            st.rowsPerPage)
    ∧ (renderedRows files st).length ≤ st.rowsPerPage
    ∧ handleRowsPerPageChange st v = ⟨st.searchTerm, 0, v⟩ := by
  refine ⟨List.filter_sublist files, ?_, ?_, rfl, ?_, rfl⟩
  · exact List.mem_filter
  · apply List.filter_eq_self.mpr
    intro a ha
    exact containsSub_nil (lowerChars a.filename)
  · simp only [renderedRows, List.length_take]
    exact Nat.min_le_left _ _

/-- C10: the XML-metadata input updates the `xmlFile` state only when the
chosen file's reported MIME type is exactly `text/xml`; any other chosen
file (or no file) leaves the state unchanged. -/
theorem xml_file_selection (xmlFile : Option BrowserFile) (f : BrowserFile) :
    (handleXmlFileChange xmlFile none = xmlFile)
    ∧ (f.mimeType = "text/xml" → handleXmlFileChange xmlFile (some f) = some f)
    ∧ (f.mimeType ≠ "text/xml" → handleXmlFileChange xmlFile (some f) = xmlFile) := by
  refine ⟨rfl, ?_, ?_⟩
  · intro h; simp [handleXmlFileChange, h]
  · intro h; simp [handleXmlFileChange, h]

/-- Witness for the tag-set invariant at concrete states. -/
theorem upload_tags_invariant_witness :
    jsTrim " b " ≠ ""
    ∧ (["a"] : List String).contains (jsTrim " b ") = false
    ∧ handleAddTag ⟨["a"], " b "⟩ = { tags := ["a"] ++ [jsTrim " b "], currentTag := "" }
    ∧ (["a"] : List String).contains (jsTrim " a ") = true
    ∧ handleAddTag ⟨["a"], " a "⟩ = ⟨["a"], " a "⟩
    ∧ "a" ∉ (handleRemoveTag ⟨["a", "b"], ""⟩ "a").tags
    ∧ ("b" : String) ≠ "a"
    ∧ ("b" ∈ (handleRemoveTag ⟨["a", "b"], ""⟩ "a").tags ↔ "b" ∈ (["a", "b"] : List String)) :=
  ⟨by decide, by decide,
   (upload_tags_invariant ⟨["a"], " b "⟩ "a").2.2.1 (by decide) (by decide),
   by decide,
   (upload_tags_invariant ⟨["a"], " a "⟩ "a").2.1 (by decide),
   (upload_tags_invariant ⟨["a", "b"], ""⟩ "a").2.2.2.2.1,
   by decide,
   (upload_tags_invariant ⟨["a", "b"], ""⟩ "a").2.2.2.2.2 "b" (by decide)⟩

/-- Witness for the Files-page filtering and pagination facts at the mock
file list. -/
theorem files_filter_pagination_witness :
    (filteredFiles mockFiles "report").Sublist mockFiles
    ∧ filteredFiles mockFiles "" = mockFiles
    ∧ (renderedRows mockFiles ⟨"", 1, 2⟩).length ≤ 2
    ∧ handleRowsPerPageChange ⟨"", 1, 2⟩ 5 = ⟨"", 0, 5⟩ :=
  ⟨(files_filter_pagination mockFiles "report" ⟨"", 1, 2⟩ 5 ⟨"", "", "", "", "", []⟩).1,
   (files_filter_pagination mockFiles "" ⟨"", 1, 2⟩ 5 ⟨"", "", "", "", "", []⟩).2.2.1,
   (files_filter_pagination mockFiles "report" ⟨"", 1, 2⟩ 5 ⟨"", "", "", "", "", []⟩).2.2.2.2.1,
   (files_filter_pagination mockFiles "report" ⟨"", 1, 2⟩ 5 ⟨"", "", "", "", "", []⟩).2.2.2.2.2⟩

/-- Witness for the XML-metadata selection behaviour at concrete files. -/
theorem xml_file_selection_witness :
    handleXmlFileChange none none = none
    ∧ (⟨"m.xml", "text/xml"⟩ : BrowserFile).mimeType = "text/xml"
    ∧ handleXmlFileChange none (some ⟨"m.xml", "text/xml"⟩) = some ⟨"m.xml", "text/xml"⟩
    ∧ (⟨"b.xml", "application/xml"⟩ : BrowserFile).mimeType ≠ "text/xml"
    ∧ handleXmlFileChange (some ⟨"a.xml", "text/xml"⟩) (some ⟨"b.xml", "application/xml"⟩)
        = some ⟨"a.xml", "text/xml"⟩ :=
  ⟨(xml_file_selection none ⟨"m.xml", "text/xml"⟩).1,
   rfl,
   (xml_file_selection none ⟨"m.xml", "text/xml"⟩).2.1 rfl,
   by decide,
   (xml_file_selection (some ⟨"a.xml", "text/xml"⟩) ⟨"b.xml", "application/xml"⟩).2.2
     (by decide)⟩

/-! ## Concrete sample fixtures -/

/-- A sample active record of tenant `t1`. -/
def sampleRecordA : FileRecord :=
  { id := 1, tenantId := "t1", filename := "report.pdf",
    contentType := "application/pdf", sizeBytes := 5, storageKey := "t1/1",
    storageProvider := .azure, tags := ["finance"], createdAt := 10,
    updatedAt := 10, status := .active }

/-- A sample registry state holding `sampleRecordA` and its bytes. -/
def sampleState : RegistryState :=
  { records := [sampleRecordA], blobs := [("t1/1", [1, 2, 3, 4, 5])], nextId := 2 }

/-- A small configuration for concrete evaluation. -/
def sampleConfig : CoreConfig :=
  { maxFileSize := 10, chunkSize := 3, allowedFileTypes := ["pdf", "txt"] }

/-! ## Claims about the content storage & metadata core -/

/-- C1: Tenant isolation — a fetch under a tenant that does not own the
record yields `NotFound` (never the other tenant's record or bytes),
every query result belongs to the context tenant, and every record an
upload creates carries the uploading tenant and a storage key partitioned
by (prefixed with) that tenant's ID. -/
theorem tenant_isolation_spec :
    (∀ (st : RegistryState) (t : String) (id : Nat) (r : FileRecord),
      findRecord st id = some r → r.tenantId ≠ t →
      fetch st t id = .error .notFound)
    ∧ (∀ (st : RegistryState) (t : String) (f : QueryFilters) (p : PageSpec)
        (r : FileRecord), r ∈ query st t f p → r.tenantId = t)
    ∧ (∀ (cfg : CoreConfig) (st : RegistryState) (tid fn ct : String)
        (stream : List Nat) (tags : List String) (now : Nat)
        (prov : StorageProviderKind) (failAt : Option Nat) (r : FileRecord),
        (upload cfg st tid fn ct stream tags now prov failAt).result = .ok r →
        r.tenantId = tid ∧ r.storageKey = tid ++ "/" ++ toString st.nextId) := by
  refine ⟨?_, ?_, ?_⟩
  · intro st t id r hfind hne
    simp only [fetch, hfind]
    rw [if_neg (fun hc => hne hc.1)]
  · intro st t f p r hr
    unfold query at hr
    have h2 := List.take_subset _ _ hr
    have h3 := List.drop_subset _ _ h2
    have h4 := (List.perm_insertionSort queryOrder _).subset h3
    rcases List.mem_filter.mp h4 with ⟨hmem, hmatch⟩
    simp only [matchesQuery, Bool.and_eq_true, beq_iff_eq] at hmatch
    exact hmatch.1.1.1
  · intro cfg st tid fn ct stream tags now prov failAt r hok
    by_cases ht : typeAllowed cfg fn = true
    · simp only [upload, ht, if_true] at hok
      rcases ho : (chunkedPut cfg st.blobs (storageKeyFor tid st.nextId) stream
          failAt).outcome with e | u
      · rw [ho] at hok
        exact Except.noConfusion hok
      · rw [ho] at hok
        injection hok with h
        subst h
        exact ⟨rfl, rfl⟩
    · simp only [upload, ht, if_false] at hok
      exact Except.noConfusion hok

/-- Witness for tenant isolation at a concrete two-tenant state. -/
theorem tenant_isolation_witness :
    findRecord sampleState 1 = some sampleRecordA
    ∧ sampleRecordA.tenantId ≠ "t2"
    ∧ fetch sampleState "t2" 1 = .error .notFound
    ∧ sampleRecordA ∈ query sampleState "t1" ⟨none, none, [], none⟩ ⟨10, 0⟩
    ∧ sampleRecordA.tenantId = "t1"
    ∧ (upload sampleConfig sampleState "t1" "a.pdf" "application/pdf" [7] [] 5
        .azure none).result = .ok
          { id := 2, tenantId := "t1", filename := "a.pdf",
            contentType := "application/pdf", sizeBytes := 1, storageKey := "t1/2",
            storageProvider := .azure, tags := [], createdAt := 5, updatedAt := 5,
            status := .active }
    ∧ ({ id := 2, tenantId := "t1", filename := "a.pdf",
         contentType := "application/pdf", sizeBytes := 1, storageKey := "t1/2",
         storageProvider := .azure, tags := [], createdAt := 5, updatedAt := 5,
         status := .active } : FileRecord).tenantId = "t1"
    ∧ ({ id := 2, tenantId := "t1", filename := "a.pdf",
         contentType := "application/pdf", sizeBytes := 1, storageKey := "t1/2",
         storageProvider := .azure, tags := [], createdAt := 5, updatedAt := 5,
         status := .active } : FileRecord).storageKey
        = "t1" ++ "/" ++ toString sampleState.nextId :=
  ⟨by decide, by decide,
   tenant_isolation_spec.1 sampleState "t2" 1 sampleRecordA (by decide) (by decide),
   by decide, by decide, by decide,
   (tenant_isolation_spec.2.2 sampleConfig sampleState "t1" "a.pdf" "application/pdf"
      [7] [] 5 .azure none _ (by decide)).1,
   (tenant_isolation_spec.2.2 sampleConfig sampleState "t1" "a.pdf" "application/pdf"
      [7] [] 5 .azure none _ (by decide)).2⟩

/-- C2: Upload atomicity — every failing upload (any stage, including a
put that fails after N of M chunks, which part (b) shows does fail) leaves
the records unchanged (so no query ever lists the file) and leaves no blob
under the key derived from the attempt, other keys untouched. -/
theorem upload_atomicity_spec :
    (∀ (cfg : CoreConfig) (st : RegistryState) (tid fn ct : String)
       (stream : List Nat) (tags : List String) (now : Nat)
       (prov : StorageProviderKind) (failAt : Option Nat) (e : CoreError)
       (st' : RegistryState) (n : Nat),
       upload cfg st tid fn ct stream tags now prov failAt = ⟨.error e, st', n⟩ →
       st'.records = st.records
       ∧ (∀ (t2 : String) (f : QueryFilters) (p : PageSpec),
            query st' t2 f p = query st t2 f p)
       ∧ (typeAllowed cfg fn = true →
            existsBlob st'.blobs (storageKeyFor tid st.nextId) = false
            ∧ ∀ k', k' ≠ storageKeyFor tid st.nextId →
                getBlob st'.blobs k' = getBlob st.blobs k'))
    ∧ (∀ (cfg : CoreConfig) (st : RegistryState) (tid fn ct : String)
        (stream : List Nat) (tags : List String) (now : Nat)
        (prov : StorageProviderKind) (i : Nat),
        typeAllowed cfg fn = true →
        i < (toChunks cfg.chunkSize stream).length →
        ∃ e st' n, upload cfg st tid fn ct stream tags now prov (some i)
            = ⟨.error e, st', n⟩) := by
  constructor
  · intro cfg st tid fn ct stream tags now prov failAt e st' n hup
    by_cases ht : typeAllowed cfg fn = true
    · simp only [upload, ht, if_true] at hup
      rcases ho : (chunkedPut cfg st.blobs (storageKeyFor tid st.nextId) stream
          failAt).outcome with e' | u
      · rw [ho] at hup
        cases hup
        refine ⟨rfl, fun t2 f p => rfl, fun _ => ⟨?_, ?_⟩⟩
        · exact chunkedPut_error_not_exists cfg st.blobs _ stream failAt _ ho
        · intro k' hk'
          exact chunkedPut_frame cfg st.blobs _ stream failAt k' hk'
      · rw [ho] at hup
        injection hup with h1 _ _
        exact Except.noConfusion h1
    · unfold upload at hup
      rw [if_neg ht] at hup
      cases hup
      exact ⟨rfl, fun t2 f p => rfl, fun h => absurd h ht⟩
  · intro cfg st tid fn ct stream tags now prov i ht hi
    obtain ⟨e, he⟩ := chunkedPut_failAt cfg st.blobs (storageKeyFor tid st.nextId)
      stream i hi
    refine ⟨e,
      { st with blobs := (chunkedPut cfg st.blobs (storageKeyFor tid st.nextId)
          stream (some i)).store },
      (chunkedPut cfg st.blobs (storageKeyFor tid st.nextId) stream (some i)).consumed,
      ?_⟩
    simp only [upload, ht, if_true]
    rw [he]

/-- C3: Round-trip — a successful upload yields a record whose
`sizeBytes` is the stream length, and a fetch by the owner returns that
record together with byte-for-byte identical content. -/
theorem upload_fetch_roundtrip_spec (cfg : CoreConfig) (st : RegistryState)
    (tid fn ct : String) (stream : List Nat) (tags : List String) (now : Nat)
    (prov : StorageProviderKind)
    (ht : typeAllowed cfg fn = true) (hcs : 0 < cfg.chunkSize)
    (hlen : stream.length ≤ cfg.maxFileSize) :
    ∃ r, (upload cfg st tid fn ct stream tags now prov none).result = .ok r
      ∧ r.sizeBytes = stream.length
      ∧ fetch (upload cfg st tid fn ct stream tags now prov none).state tid r.id
          = .ok (r, stream) := by
  obtain ⟨hok, hcons, hget⟩ := chunkedPut_ok cfg st.blobs (storageKeyFor tid st.nextId)
    stream hcs hlen
  refine ⟨{ id := st.nextId, tenantId := tid, filename := fn, contentType := ct,
            sizeBytes := stream.length, storageKey := storageKeyFor tid st.nextId,
            storageProvider := prov, tags := tags, createdAt := now, updatedAt := now,
            status := .active }, ?_, rfl, ?_⟩
  · simp only [upload, ht, if_true]
    rw [hok]
  · simp only [upload, ht, if_true]
    rw [hok]
    exact fetch_found _ tid _ _ stream (List.find?_cons_of_pos _ (by simp)) rfl rfl hget

/-- Witness for upload atomicity: a put that fails on chunk 0 of 2 leaves
the sample state untouched. -/
theorem upload_atomicity_witness :
    upload sampleConfig sampleState "t1" "a.pdf" "application/pdf" [1, 2, 3, 4, 5] [] 5
        .azure (some 0) = ⟨.error .storageUnavailable, sampleState, 3⟩
    ∧ sampleState.records = sampleState.records
    ∧ query sampleState "t1" ⟨none, none, [], none⟩ ⟨10, 0⟩
        = query sampleState "t1" ⟨none, none, [], none⟩ ⟨10, 0⟩
    ∧ typeAllowed sampleConfig "a.pdf" = true
    ∧ existsBlob sampleState.blobs (storageKeyFor "t1" sampleState.nextId) = false
    ∧ (0 : Nat) < (toChunks sampleConfig.chunkSize [1, 2, 3, 4, 5]).length
    ∧ ∃ e st' n, upload sampleConfig sampleState "t1" "a.pdf" "application/pdf"
        [1, 2, 3, 4, 5] [] 5 .azure (some 0) = ⟨.error e, st', n⟩ :=
  ⟨by decide,
   (upload_atomicity_spec.1 sampleConfig sampleState "t1" "a.pdf" "application/pdf"
      [1, 2, 3, 4, 5] [] 5 .azure (some 0) .storageUnavailable sampleState 3
      (by decide)).1,
   (upload_atomicity_spec.1 sampleConfig sampleState "t1" "a.pdf" "application/pdf"
      [1, 2, 3, 4, 5] [] 5 .azure (some 0) .storageUnavailable sampleState 3
      (by decide)).2.1 "t1" ⟨none, none, [], none⟩ ⟨10, 0⟩,
   by decide,
   ((upload_atomicity_spec.1 sampleConfig sampleState "t1" "a.pdf" "application/pdf"
      [1, 2, 3, 4, 5] [] 5 .azure (some 0) .storageUnavailable sampleState 3
      (by decide)).2.2 (by decide)).1,
   by decide,
   upload_atomicity_spec.2 sampleConfig sampleState "t1" "a.pdf" "application/pdf"
     [1, 2, 3, 4, 5] [] 5 .azure 0 (by decide) (by decide)⟩

/-- Witness for the round-trip at a concrete upload. -/
theorem upload_fetch_roundtrip_witness :
    typeAllowed sampleConfig "b.txt" = true
    ∧ 0 < sampleConfig.chunkSize
    ∧ ([9, 8, 7, 6] : List Nat).length ≤ sampleConfig.maxFileSize
    ∧ ∃ r, (upload sampleConfig sampleState "t1" "b.txt" "text/plain" [9, 8, 7, 6] [] 7
            .gcp none).result = .ok r
        ∧ r.sizeBytes = ([9, 8, 7, 6] : List Nat).length
        ∧ fetch (upload sampleConfig sampleState "t1" "b.txt" "text/plain" [9, 8, 7, 6]
            [] 7 .gcp none).state "t1" r.id = .ok (r, [9, 8, 7, 6]) :=
  ⟨by decide, by decide, by decide,
   upload_fetch_roundtrip_spec sampleConfig sampleState "t1" "b.txt" "text/plain"
     [9, 8, 7, 6] [] 7 .gcp (by decide) (by decide) (by decide)⟩

theorem find?_map_status (rs : List FileRecord) (id : Nat) (s : FileStatus) :
    List.find? (fun r => r.id == id)
        (rs.map (fun r => if r.id = id then { r with status := s } else r))
      = (List.find? (fun r => r.id == id) rs).map (fun r => { r with status := s }) := by
  induction rs with
  | nil => rfl
  | cons r rest ih =>
      by_cases h : r.id = id
      · simp [List.find?_cons, h]
      · simpa [List.find?_cons, h] using ih

/-- C4: Delete idempotence and visibility — once a delete succeeds, a
fetch of the id yields `NotFound`, a second delete succeeds as a no-op on
the same terminal state, and at the Storage Provider layer deleting an
already-deleted (missing) key is a no-op, not an error. -/
theorem delete_idempotent_spec :
    (∀ (st : RegistryState) (t : String) (id : Nat) (st' : RegistryState),
       deleteFile st t id true = .ok st' →
       fetch st' t id = .error .notFound ∧ deleteFile st' t id true = .ok st')
    ∧ (∀ (b : BlobStore) (k : String),
        deleteBlob (deleteBlob b k) k = deleteBlob b k) := by
  constructor
  · intro st t id st' hdel
    unfold deleteFile at hdel
    rcases hfind : findRecord st id with _ | r
    · rw [hfind] at hdel
      exact Except.noConfusion hdel
    · have hfind' : List.find? (fun x => x.id == id) st.records = some r := hfind
      simp only [hfind] at hdel
      by_cases htid : r.tenantId = t
      · rw [if_pos htid] at hdel
        cases hst : r.status
        on_goal 4 =>
          simp only [hst] at hdel
          injection hdel with h
          subst h
          constructor
          · simp only [fetch, hfind]
            rw [if_neg (fun hc => by
              have h2 := hc.2
              rw [hst] at h2
              exact FileStatus.noConfusion h2)]
          · simp only [deleteFile, hfind]
            rw [if_pos htid, hst]
        all_goals
          simp only [hst, if_true] at hdel
          injection hdel with h
          subst h
          have hfS : findRecord (setStatus
              { setStatus st id .tombstoned with
                blobs := deleteBlob (setStatus st id .tombstoned).blobs r.storageKey }
              id .purged) id = some { r with status := .purged } := by
            simp only [findRecord, setStatus]
            rw [find?_map_status, find?_map_status, hfind']
            rfl
          constructor
          · simp only [fetch, hfS]
            rw [if_neg (fun hc => FileStatus.noConfusion hc.2)]
          · simp only [deleteFile, hfS]
            rw [if_pos htid]
      · rw [if_neg htid] at hdel
        exact Except.noConfusion hdel
  · exact deleteBlob_deleteBlob

/-- Witness for delete idempotence at the sample state. -/
theorem delete_idempotent_witness :
    deleteFile sampleState "t1" 1 true
        = .ok ⟨[{ sampleRecordA with status := .purged }], [], 2⟩
    ∧ fetch (⟨[{ sampleRecordA with status := .purged }], [], 2⟩ : RegistryState) "t1" 1
        = .error .notFound
    ∧ deleteFile (⟨[{ sampleRecordA with status := .purged }], [], 2⟩ : RegistryState)
        "t1" 1 true = .ok ⟨[{ sampleRecordA with status := .purged }], [], 2⟩
    ∧ deleteBlob (deleteBlob [("t1/1", [1, 2, 3, 4, 5])] "t1/1") "t1/1"
        = deleteBlob [("t1/1", [1, 2, 3, 4, 5])] "t1/1" :=
  ⟨by decide,
   (delete_idempotent_spec.1 sampleState "t1" 1
      ⟨[{ sampleRecordA with status := .purged }], [], 2⟩ (by decide)).1,
   (delete_idempotent_spec.1 sampleState "t1" 1
      ⟨[{ sampleRecordA with status := .purged }], [], 2⟩ (by decide)).2,
   delete_idempotent_spec.2 [("t1/1", [1, 2, 3, 4, 5])] "t1/1"⟩

/-- C5: Query semantics — the context tenant is applied regardless of the
caller-supplied tenant filter, every result matches the filename
substring, tag intersection and status filters, results are sorted by
`createdAt` descending with ties broken by `id`, and `limit`/`offset`
paginate deterministically. -/
theorem query_semantics_spec (st : RegistryState) (t : String)
    (f : QueryFilters) (p : PageSpec) (r : FileRecord) :
    (∀ tOpt, query st t { f with tenant := tOpt } p = query st t f p)
    ∧ (r ∈ query st t f p →
        r.tenantId = t
        ∧ (∀ s, f.filenameContains = some s →
            containsSub s.data r.filename.data = true)
        ∧ (∀ tg ∈ f.tags, r.tags.contains tg = true)
        ∧ (∀ σ, f.status = some σ → r.status = σ))
    ∧ List.Sorted queryOrder (query st t f p)
    ∧ (query st t f p).length ≤ p.limit
    ∧ query st t f p = (query st t f ⟨p.offset + p.limit, 0⟩).drop p.offset := by
  refine ⟨fun tOpt => rfl, ?_, ?_, ?_, ?_⟩
  · intro hr
    unfold query at hr
    have h2 := List.take_subset _ _ hr
    have h3 := List.drop_subset _ _ h2
    have h4 := (List.perm_insertionSort queryOrder _).subset h3
    rcases List.mem_filter.mp h4 with ⟨hmem, hmatch⟩
    simp only [matchesQuery, Bool.and_eq_true, beq_iff_eq] at hmatch
    obtain ⟨⟨⟨h1, hfc⟩, htg⟩, hsf⟩ := hmatch
    refine ⟨h1, ?_, ?_, ?_⟩
    · intro s hs
      rw [hs] at hfc
      exact hfc
    · intro tg htg'
      have := List.all_eq_true.mp htg tg htg'
      simpa using this
    · intro σ hσ
      rw [hσ] at hsf
      exact eq_of_beq hsf
  · have hs := List.sorted_insertionSort queryOrder
      (st.records.filter (matchesQuery t f))
    exact List.Pairwise.sublist
      ((List.take_sublist _ _).trans (List.drop_sublist _ _)) hs
  · simp only [query, List.length_take]
    exact Nat.min_le_left _ _
  · simp only [query, List.drop_zero, List.drop_take]
    congr 1
    omega

/-- Witness for the query semantics at the sample state. -/
theorem query_semantics_witness :
    query sampleState "t1" ⟨some "caller-supplied", none, [], none⟩ ⟨10, 0⟩
      = query sampleState "t1" ⟨none, none, [], none⟩ ⟨10, 0⟩
    ∧ sampleRecordA ∈ query sampleState "t1" ⟨none, none, [], none⟩ ⟨10, 0⟩
    ∧ sampleRecordA.tenantId = "t1"
    ∧ List.Sorted queryOrder (query sampleState "t1" ⟨none, none, [], none⟩ ⟨10, 0⟩)
    ∧ (query sampleState "t1" ⟨none, none, [], none⟩ ⟨10, 0⟩).length ≤ 10 :=
  ⟨(query_semantics_spec sampleState "t1" ⟨none, none, [], none⟩ ⟨10, 0⟩
      sampleRecordA).1 (some "caller-supplied"),
   by decide,
   ((query_semantics_spec sampleState "t1" ⟨none, none, [], none⟩ ⟨10, 0⟩
      sampleRecordA).2.1 (by decide)).1,
   (query_semantics_spec sampleState "t1" ⟨none, none, [], none⟩ ⟨10, 0⟩
      sampleRecordA).2.2.1,
   (query_semantics_spec sampleState "t1" ⟨none, none, [], none⟩ ⟨10, 0⟩
      sampleRecordA).2.2.2.1⟩

/-- C6: Size-limit enforcement — every stream longer than the configured
maximum is rejected with `SizeLimitExceeded` having consumed zero bytes
(so strictly before the full stream is consumed, the size policy being
enforced ahead of any commit); no record is created and no bytes of the
attempt are retained; the deployed configuration sets the maximum to
100 MB (`MAX_FILE_SIZE=100`). -/
theorem size_limit_spec (cfg : CoreConfig) (st : RegistryState)
    (tid fn ct : String) (stream : List Nat) (tags : List String) (now : Nat)
    (prov : StorageProviderKind) (failAt : Option Nat)
    (ht : typeAllowed cfg fn = true)
    (hlen : cfg.maxFileSize < stream.length) :
    (upload cfg st tid fn ct stream tags now prov failAt).result
        = .error .sizeLimitExceeded
    ∧ (upload cfg st tid fn ct stream tags now prov failAt).consumed = 0
    ∧ (upload cfg st tid fn ct stream tags now prov failAt).consumed < stream.length
    ∧ (upload cfg st tid fn ct stream tags now prov failAt).state.records = st.records
    ∧ existsBlob (upload cfg st tid fn ct stream tags now prov failAt).state.blobs
        (storageKeyFor tid st.nextId) = false
    ∧ (∀ k', k' ≠ storageKeyFor tid st.nextId →
        getBlob (upload cfg st tid fn ct stream tags now prov failAt).state.blobs k'
          = getBlob st.blobs k')
    ∧ defaultConfig.maxFileSize = 100 * 1024 * 1024 := by
  have hput := chunkedPut_exceeds cfg st.blobs (storageKeyFor tid st.nextId)
    stream failAt hlen
  have hred : upload cfg st tid fn ct stream tags now prov failAt
      = ⟨.error .sizeLimitExceeded,
         { st with blobs := deleteBlob st.blobs (storageKeyFor tid st.nextId) }, 0⟩ := by
    simp only [upload, ht, if_true]
    rw [hput]
  rw [hred]
  refine ⟨rfl, rfl, by simp only; omega, rfl, ?_, ?_, rfl⟩
  · show (getBlob (deleteBlob st.blobs (storageKeyFor tid st.nextId))
      (storageKeyFor tid st.nextId)).isSome = false
    rw [getBlob_deleteBlob_self]
    rfl
  · intro k' hk'
    exact getBlob_deleteBlob_ne _ _ _ hk'

/-- Witness for size-limit enforcement: an 11-byte stream against the
10-byte-maximum sample configuration (one byte over the limit — within a
single 3-byte chunk of it) is rejected with nothing consumed. -/
theorem size_limit_witness :
    typeAllowed sampleConfig "a.pdf" = true
    ∧ sampleConfig.maxFileSize
        < ([1, 2, 3, 4, 5, 6, 7, 8, 9, 10, 11] : List Nat).length
    ∧ (upload sampleConfig sampleState "t1" "a.pdf" "application/pdf"
        [1, 2, 3, 4, 5, 6, 7, 8, 9, 10, 11] [] 5 .aws none).result
        = .error .sizeLimitExceeded
    ∧ (upload sampleConfig sampleState "t1" "a.pdf" "application/pdf"
        [1, 2, 3, 4, 5, 6, 7, 8, 9, 10, 11] [] 5 .aws none).consumed = 0
    ∧ (upload sampleConfig sampleState "t1" "a.pdf" "application/pdf"
        [1, 2, 3, 4, 5, 6, 7, 8, 9, 10, 11] [] 5 .aws none).consumed
        < ([1, 2, 3, 4, 5, 6, 7, 8, 9, 10, 11] : List Nat).length
    ∧ (upload sampleConfig sampleState "t1" "a.pdf" "application/pdf"
        [1, 2, 3, 4, 5, 6, 7, 8, 9, 10, 11] [] 5 .aws none).state.records
        = sampleState.records
    ∧ existsBlob (upload sampleConfig sampleState "t1" "a.pdf" "application/pdf"
        [1, 2, 3, 4, 5, 6, 7, 8, 9, 10, 11] [] 5 .aws none).state.blobs
        (storageKeyFor "t1" sampleState.nextId) = false :=
  ⟨by decide, by decide,
   (size_limit_spec sampleConfig sampleState "t1" "a.pdf" "application/pdf"
      [1, 2, 3, 4, 5, 6, 7, 8, 9, 10, 11] [] 5 .aws none
      (by decide) (by decide)).1,
   (size_limit_spec sampleConfig sampleState "t1" "a.pdf" "application/pdf"
      [1, 2, 3, 4, 5, 6, 7, 8, 9, 10, 11] [] 5 .aws none
      (by decide) (by decide)).2.1,
   (size_limit_spec sampleConfig sampleState "t1" "a.pdf" "application/pdf"
      [1, 2, 3, 4, 5, 6, 7, 8, 9, 10, 11] [] 5 .aws none
      (by decide) (by decide)).2.2.1,
   (size_limit_spec sampleConfig sampleState "t1" "a.pdf" "application/pdf"
      [1, 2, 3, 4, 5, 6, 7, 8, 9, 10, 11] [] 5 .aws none
      (by decide) (by decide)).2.2.2.1,
   (size_limit_spec sampleConfig sampleState "t1" "a.pdf" "application/pdf"
      [1, 2, 3, 4, 5, 6, 7, 8, 9, 10, 11] [] 5 .aws none
      (by decide) (by decide)).2.2.2.2.1⟩

/-- C7: Allowed-file-type policy — the configured allow-list is exactly
the twelve types of the `allowed_file_types` ConfigMap entry, and an
upload whose filename extension is outside the list is rejected with a
validation error with the state fully unchanged and zero bytes consumed
(nothing committed to the Storage Provider). -/
theorem allowed_types_spec :
    defaultConfig.allowedFileTypes
      = ["pdf", "doc", "docx", "txt", "xml", "json", "csv", "xlsx",
         "png", "jpg", "jpeg", "gif"]
    ∧ (∀ (cfg : CoreConfig) (st : RegistryState) (tid fn ct : String)
        (stream : List Nat) (tags : List String) (now : Nat)
        (prov : StorageProviderKind) (failAt : Option Nat),
        typeAllowed cfg fn = false →
        upload cfg st tid fn ct stream tags now prov failAt
          = ⟨.error .validationError, st, 0⟩) := by
  refine ⟨rfl, ?_⟩
  intro cfg st tid fn ct stream tags now prov failAt h
  unfold upload
  rw [if_neg (by intro hc; rw [h] at hc; exact Bool.noConfusion hc)]

/-- Witness for the type policy: an `.exe` upload is rejected untouched. -/
theorem allowed_types_witness :
    typeAllowed defaultConfig "malware.exe" = false
    ∧ upload defaultConfig sampleState "t1" "malware.exe" "application/x-exe"
        [1, 2, 3] [] 5 .localDisk none = ⟨.error .validationError, sampleState, 0⟩
    ∧ typeAllowed defaultConfig "report.PDF" = true :=
  ⟨by decide,
   allowed_types_spec.2 defaultConfig sampleState "t1" "malware.exe"
     "application/x-exe" [1, 2, 3] [] 5 .localDisk none (by decide),
   by decide⟩
